import Mathlib

/-!
Shallow embedding of the force-run-to-cursor extension core
(src/extension.ts) and verification of its specified properties.

Breakpoints are opaque to the core, so the embedding is parametric in a
breakpoint type with decidable equality. The host breakpoint store is a
list (order preserved, as in the editor API). JavaScript Map objects keyed
by session id are embedded as association lists with insertion-order
semantics (set replaces in place, delete removes the key). Asynchronous
host calls (protocol requests, command execution, user notifications) are
recorded in an explicit trace; a protocol call that may fail carries a
boolean outcome supplied by an oracle, and a failed call is swallowed
exactly where the source catches it.
-/

namespace ForceRunToCursor

/-- One exception filter option of a DAP setExceptionBreakpoints request
(interface ExceptionFilterOption, extension.ts lines 21-24). -/
structure ExceptionFilterOption where
  filterId : String
  condition : Option String
deriving DecidableEq, Repr

/-- Cached exception breakpoint filter configuration for a debug session
(type ExceptionFilterState, extension.ts lines 29-32). -/
structure ExceptionFilterState where
  filters : List String
  filterOptions : Option (List ExceptionFilterOption)
deriving DecidableEq, Repr

/-- The DAP message fields the core inspects (interface DapMessage,
extension.ts lines 6-18). The nested optional objects arguments and body
are flattened into optional fields. -/
structure DapMessage where
  type : Option String := none
  command : Option String := none
  event : Option String := none
  argFilters : Option (List String) := none
  argFilterOptions : Option (List ExceptionFilterOption) := none
  bodyReason : Option String := none
  bodyThreadId : Option Nat := none
deriving DecidableEq, Repr

/-- Minimal session interface (type SessionLike, extension.ts lines 35-38).
The optional customRequest function is embedded as a capability flag; the
behaviour of an issued request (success or failure) is supplied by an
oracle at each call site. -/
structure SessionLike where
  id : String
  hasCustomRequest : Bool
deriving DecidableEq, Repr

/-- Per-force-run state (type ForceRunState, extension.ts lines 41-47). -/
structure ForceRunState (α : Type) where
  savedBreakpoints : List α
  continueCount : Nat
  sessionRef : Option SessionLike := none
  didContinue : Bool := false
deriving DecidableEq, Repr

/-- Consolidated context for all force-run state (type ForceRunContext,
extension.ts lines 57-60): the activeRuns map and the exceptionCache map,
both keyed by session id. -/
structure ForceRunContext (α : Type) where
  activeRuns : List (String × ForceRunState α)
  exceptionCache : List (String × ExceptionFilterState)
deriving DecidableEq, Repr

/-- Maximum number of auto-continues on exception stops
(extension.ts line 69). -/
def MAX_EXCEPTION_CONTINUES : Nat := 3

/-- An observable host interaction: a user notification, an editor command,
a breakpoint store mutation, or a DAP protocol request. Protocol requests
carry the oracle-supplied outcome of the awaited call. -/
inductive HostCall (α : Type) where
  | showInfoMessage
  | showWarningMessage
  | runToCursorCommand
  | removeBreakpointsCall (bps : List α)
  | addBreakpointsCall (bps : List α)
  | setExceptionBreakpointsRequest (sessionId : String) (args : ExceptionFilterState) (ok : Bool)
  | continueRequest (sessionId : String) (threadId : Option Nat) (ok : Bool)
deriving DecidableEq, Repr

section MapOps

variable {β : Type}

/-- Lookup in a JavaScript-Map-like association list (Map.get / Map.has). -/
def mapLookup (k : String) : List (String × β) → Option β
  | [] => none
  | (k1, v) :: rest => if k1 = k then some v else mapLookup k rest

/-- Insertion in a JavaScript-Map-like association list (Map.set):
replaces the value in place when the key is present, appends otherwise. -/
def mapInsert (k : String) (v : β) : List (String × β) → List (String × β)
  | [] => [(k, v)]
  | (k1, v1) :: rest => if k1 = k then (k, v) :: rest else (k1, v1) :: mapInsert k v rest

/-- Deletion in a JavaScript-Map-like association list (Map.delete). -/
def mapErase (k : String) : List (String × β) → List (String × β)
  | [] => []
  | (k1, v1) :: rest => if k1 = k then mapErase k rest else (k1, v1) :: mapErase k rest

end MapOps

section StoreOps

variable {α : Type} [DecidableEq α]

/-- Semantics of the host capability debug.removeBreakpoints: every listed
breakpoint is removed from the store, remaining breakpoints keep their
order. -/
def removeBreakpointsFromStore (store bps : List α) : List α :=
  store.filter (fun b => decide (¬ b ∈ bps))

/-- Semantics of the host capability debug.addBreakpoints: the listed
breakpoints are appended to the store in the given order. -/
def addBreakpointsToStore (store bps : List α) : List α :=
  store ++ bps

end StoreOps

section CoreOps

variable {α : Type} [DecidableEq α]

/-- Function restoreBreakpoints (extension.ts lines 130-139): read the
current store contents as leftover, remove them when non-empty, then
re-add the saved set. Returns the resulting store and the host calls
issued. -/
def restoreBreakpoints (store saved : List α) : List α × List (HostCall α) :=
  if store.length > 0 then
    (addBreakpointsToStore (removeBreakpointsFromStore store store) saved,
     [HostCall.removeBreakpointsCall store, HostCall.addBreakpointsCall saved])
  else
    (addBreakpointsToStore store saved,
     [HostCall.addBreakpointsCall saved])

/-- Truthiness of the optional customRequest capability of an optional
session value, as tested by expressions of the form session?.customRequest
in the source. -/
def capableOf : Option SessionLike → Bool
  | some es => es.hasCustomRequest
  | none => false

/-- The setExceptionBreakpoints protocol call issued at the end of
fullRestore (extension.ts lines 152-159): issued only when a cached filter
configuration exists for the session and the session reference carries the
customRequest capability. A failure of the awaited call is logged and
swallowed, so only the recorded outcome differs. -/
def filterRestoreCalls {α : Type} (sessionId : String) (session : Option SessionLike)
    (ctx : ForceRunContext α) (restoreOk : Bool) : List (HostCall α) :=
  match mapLookup sessionId ctx.exceptionCache, session with
  | some cached, some s =>
    if s.hasCustomRequest then
      [HostCall.setExceptionBreakpointsRequest sessionId cached restoreOk]
    else []
  | _, _ => []

/-- Function fullRestore (extension.ts lines 144-160): restore breakpoints
via restoreBreakpoints, then restore exception filters from the cache when
possible. Returns the resulting store and the host calls issued; the
context is not modified. -/
def fullRestore (sessionId : String) (runState : ForceRunState α)
    (session : Option SessionLike) (ctx : ForceRunContext α) (store : List α)
    (restoreOk : Bool) : List α × List (HostCall α) :=
  ((restoreBreakpoints store runState.savedBreakpoints).1,
   (restoreBreakpoints store runState.savedBreakpoints).2 ++
     filterRestoreCalls sessionId session ctx restoreOk)

/-- Function cacheExceptionFilters (extension.ts lines 83-101): on an
outgoing setExceptionBreakpoints request, unless a force-run is active for
the session, replace the cached filter configuration for the session with
the filters (or an empty list when absent) and the optional filterOptions
carried by the message. -/
def cacheExceptionFilters {α : Type} (sessionId : String) (msg : DapMessage)
    (ctx : ForceRunContext α) : ForceRunContext α :=
  if msg.type ≠ some "request" ∨ msg.command ≠ some "setExceptionBreakpoints" then ctx
  else if (mapLookup sessionId ctx.activeRuns).isSome then ctx
  else
    ⟨ctx.activeRuns,
     mapInsert sessionId ⟨msg.argFilters.getD [], msg.argFilterOptions⟩ ctx.exceptionCache⟩

/-- Result of forceRunToCursorImpl: the breakpoint store, the context and
the trace of host calls issued, in order. -/
structure ForceRunResult (α : Type) where
  store : List α
  ctx : ForceRunContext α
  calls : List (HostCall α)
deriving DecidableEq, Repr

/-- Function forceRunToCursorImpl (extension.ts lines 168-204). With no
session: guidance message only. With a force-run already pending for the
session id: immediate return, nothing mutated, no call issued. Otherwise:
snapshot the full store, remove all of it, suppress exception filters when
the session has customRequest and a cached configuration exists (on
success the session reference is stored in the new run state, on failure
the error is swallowed and no reference is stored), insert the new run
state into activeRuns, and invoke the run-to-cursor command. -/
def forceRunToCursorImpl (session : Option SessionLike)
    (store : List α) (ctx : ForceRunContext α) (suppressOk : Bool) : ForceRunResult α :=
  match session with
  | none => ⟨store, ctx, [HostCall.showInfoMessage]⟩
  | some s =>
    if (mapLookup s.id ctx.activeRuns).isSome then ⟨store, ctx, []⟩
    else if s.hasCustomRequest && (mapLookup s.id ctx.exceptionCache).isSome then
      ⟨removeBreakpointsFromStore store store,
       ⟨mapInsert s.id
          ⟨store, 0, if suppressOk then some ⟨s.id, true⟩ else none, false⟩
          ctx.activeRuns,
        ctx.exceptionCache⟩,
       [HostCall.removeBreakpointsCall store,
        HostCall.setExceptionBreakpointsRequest s.id ⟨[], none⟩ suppressOk,
        HostCall.runToCursorCommand]⟩
    else
      ⟨removeBreakpointsFromStore store store,
       ⟨mapInsert s.id ⟨store, 0, none, false⟩ ctx.activeRuns, ctx.exceptionCache⟩,
       [HostCall.removeBreakpointsCall store, HostCall.runToCursorCommand]⟩

/-- The DAP message corresponding to the suppression request
customRequest issued with command setExceptionBreakpoints and arguments
consisting of an empty filters list (extension.ts line 193), as it appears
to the debug adapter tracker. -/
def suppressionMessage : DapMessage :=
  { type := some "request", command := some "setExceptionBreakpoints",
    argFilters := some [] }

/-- Function forceRunToCursorImpl composed with the debug adapter tracker
wiring of activate (extension.ts lines 293-306): every outgoing DAP
request is also delivered to onWillReceiveMessage, which invokes
cacheExceptionFilters with the context current at send time. The
suppression request of line 193 is sent, and therefore observed by the
tracker, before the activeRuns entry is inserted at line 200 (the awaited
response necessarily arrives after the request was delivered to the
adapter), so the tracker sees the context without the new run state. -/
def forceRunToCursorTracked (session : Option SessionLike)
    (store : List α) (ctx : ForceRunContext α) (suppressOk : Bool) : ForceRunResult α :=
  match session with
  | none => ⟨store, ctx, [HostCall.showInfoMessage]⟩
  | some s =>
    if (mapLookup s.id ctx.activeRuns).isSome then ⟨store, ctx, []⟩
    else if s.hasCustomRequest && (mapLookup s.id ctx.exceptionCache).isSome then
      let ctxTracked := cacheExceptionFilters s.id suppressionMessage ctx
      ⟨removeBreakpointsFromStore store store,
       ⟨mapInsert s.id
          ⟨store, 0, if suppressOk then some ⟨s.id, true⟩ else none, false⟩
          ctxTracked.activeRuns,
        ctxTracked.exceptionCache⟩,
       [HostCall.removeBreakpointsCall store,
        HostCall.setExceptionBreakpointsRequest s.id ⟨[], none⟩ suppressOk,
        HostCall.runToCursorCommand]⟩
    else
      ⟨removeBreakpointsFromStore store store,
       ⟨mapInsert s.id ⟨store, 0, none, false⟩ ctx.activeRuns, ctx.exceptionCache⟩,
       [HostCall.removeBreakpointsCall store, HostCall.runToCursorCommand]⟩

/-- Result of maybeRestoreOnAdapterEvent: the returned boolean, the
breakpoint store, the context and the trace of host calls issued. -/
structure RestoreResult (α : Type) where
  restored : Bool
  store : List α
  ctx : ForceRunContext α
  calls : List (HostCall α)
deriving DecidableEq, Repr

/-- The shared restore tail of maybeRestoreOnAdapterEvent (extension.ts
lines 239-249): optionally warn the user (only on ceiling breach, and only
when the optional window dependency is present), delete the activeRuns
entry, then run fullRestore for the session. -/
def restoreTail (sessionId : String) (runState : ForceRunState α)
    (effSession : Option SessionLike) (store : List α) (ctx : ForceRunContext α)
    (restoreOk : Bool) (warn : Bool) : RestoreResult α :=
  ⟨true,
   (fullRestore sessionId runState effSession
      ⟨mapErase sessionId ctx.activeRuns, ctx.exceptionCache⟩ store restoreOk).1,
   ⟨mapErase sessionId ctx.activeRuns, ctx.exceptionCache⟩,
   (if warn then [HostCall.showWarningMessage] else []) ++
     (fullRestore sessionId runState effSession
        ⟨mapErase sessionId ctx.activeRuns, ctx.exceptionCache⟩ store restoreOk).2⟩

/-- Function maybeRestoreOnAdapterEvent (extension.ts lines 214-250).
No-op returning false unless a run state is tracked for the session and
the message is a stopped event. On an exception stop with a capable
effective session (the passed session, or failing that the stored session
reference): below the ceiling, increment the counter in place, issue one
continue request for the reported thread and return false; at the ceiling,
warn the user (when the window dependency is present) and fall through.
Otherwise delete the run state, run fullRestore and return true. -/
def maybeRestoreOnAdapterEvent (sessionId : String) (msg : DapMessage)
    (session : Option SessionLike) (store : List α) (ctx : ForceRunContext α)
    (hasWindow continueOk restoreOk : Bool) : RestoreResult α :=
  match mapLookup sessionId ctx.activeRuns with
  | none => ⟨false, store, ctx, []⟩
  | some runState =>
    if msg.type ≠ some "event" ∨ msg.event ≠ some "stopped" then ⟨false, store, ctx, []⟩
    else if msg.bodyReason = some "exception" ∧
            capableOf (session.orElse fun _ => runState.sessionRef) = true then
      if runState.continueCount < MAX_EXCEPTION_CONTINUES then
        ⟨false, store,
         ⟨mapInsert sessionId
            { runState with continueCount := runState.continueCount + 1 }
            ctx.activeRuns,
          ctx.exceptionCache⟩,
         [HostCall.continueRequest sessionId msg.bodyThreadId continueOk]⟩
      else
        restoreTail sessionId runState (session.orElse fun _ => runState.sessionRef)
          store ctx restoreOk hasWindow
    else
      restoreTail sessionId runState (session.orElse fun _ => runState.sessionRef)
        store ctx restoreOk false

/-- Result of cancelAllPendingRestores: the breakpoint store, the context
and the trace of host calls issued. -/
structure CancelResult (α : Type) where
  store : List α
  ctx : ForceRunContext α
  calls : List (HostCall α)
deriving DecidableEq, Repr

/-- The loop body of cancelAllPendingRestores (extension.ts lines
259-261): iterate the activeRuns entries in order, running fullRestore for
each with its stored session reference, threading the breakpoint store.
The per-session outcome oracle gives the result of each awaited filter
restore call. -/
def cancelLoop (entries : List (String × ForceRunState α))
    (ctx : ForceRunContext α) (store : List α) (ok : String → Bool) :
    List α × List (HostCall α) :=
  match entries with
  | [] => (store, [])
  | (sid, st) :: rest =>
    let r := fullRestore sid st st.sessionRef ctx store (ok sid)
    let r2 := cancelLoop rest ctx r.1 ok
    (r2.1, r.2 ++ r2.2)

/-- Function cancelAllPendingRestores (extension.ts lines 255-263): run
fullRestore for every tracked session, then clear the activeRuns map. The
exception cache is left untouched. -/
def cancelAllPendingRestores (store : List α) (ctx : ForceRunContext α)
    (ok : String → Bool) : CancelResult α :=
  ⟨(cancelLoop ctx.activeRuns ctx store ok).1,
   ⟨[], ctx.exceptionCache⟩,
   (cancelLoop ctx.activeRuns ctx store ok).2⟩

/-- The onDidTerminateDebugSession safety net registered by activate
(extension.ts lines 322-333): when a run state is pending for the
terminated session, delete it and restore breakpoints synchronously (no
protocol call); in all cases delete the exception cache entry of the
session. -/
def onTerminateSafetyNet (sessionId : String) (store : List α)
    (ctx : ForceRunContext α) : List α × ForceRunContext α × List (HostCall α) :=
  match mapLookup sessionId ctx.activeRuns with
  | some runState =>
    ((restoreBreakpoints store runState.savedBreakpoints).1,
     ⟨mapErase sessionId ctx.activeRuns, mapErase sessionId ctx.exceptionCache⟩,
     (restoreBreakpoints store runState.savedBreakpoints).2)
  | none =>
    (store, ⟨ctx.activeRuns, mapErase sessionId ctx.exceptionCache⟩, [])

/-- The onWillReceiveMessage tracker callback registered by activate
(extension.ts lines 297-306): cache exception filters from the message,
then mark didContinue on the tracked run state when the message is a
continue request. -/
def onWillReceiveMessage {α : Type} (sessionId : String) (msg : DapMessage)
    (ctx : ForceRunContext α) : ForceRunContext α :=
  let ctx1 := cacheExceptionFilters sessionId msg ctx
  if msg.type = some "request" ∧ msg.command = some "continue" then
    match mapLookup sessionId ctx1.activeRuns with
    | some runState =>
      ⟨mapInsert sessionId { runState with didContinue := true } ctx1.activeRuns,
       ctx1.exceptionCache⟩
    | none => ctx1
  else ctx1

/-- The deferred no-op detection task scheduled by the runToCursor.force
command (extension.ts lines 366-375): when the run state is still pending
and no continue request was observed, delete it and run fullRestore. -/
def noopTimerFire (sessionId : String) (store : List α)
    (ctx : ForceRunContext α) (restoreOk : Bool) :
    List α × ForceRunContext α × List (HostCall α) :=
  match mapLookup sessionId ctx.activeRuns with
  | some runState =>
    if runState.didContinue then (store, ctx, [])
    else
      ((fullRestore sessionId runState runState.sessionRef
          ⟨mapErase sessionId ctx.activeRuns, ctx.exceptionCache⟩ store restoreOk).1,
       ⟨mapErase sessionId ctx.activeRuns, ctx.exceptionCache⟩,
       (fullRestore sessionId runState runState.sessionRef
          ⟨mapErase sessionId ctx.activeRuns, ctx.exceptionCache⟩ store restoreOk).2)
  | none => (store, ctx, [])

end CoreOps

section StepRelation

variable {α : Type} [DecidableEq α]

/-- One event-loop transition of the extension on the pair of breakpoint
store and context: a start command, a start command with the tracker
wiring, an adapter event, the cancel command, an outgoing-message tracker
callback, the termination safety net, or the no-op detection timer. -/
inductive Step : (List α × ForceRunContext α) → (List α × ForceRunContext α) → Prop where
  | forceRun (session : Option SessionLike) (ok : Bool) (store : List α)
      (ctx : ForceRunContext α) :
      Step (store, ctx)
        ((forceRunToCursorImpl session store ctx ok).store,
         (forceRunToCursorImpl session store ctx ok).ctx)
  | forceRunTracked (session : Option SessionLike) (ok : Bool) (store : List α)
      (ctx : ForceRunContext α) :
      Step (store, ctx)
        ((forceRunToCursorTracked session store ctx ok).store,
         (forceRunToCursorTracked session store ctx ok).ctx)
  | adapterEvent (sid : String) (msg : DapMessage) (session : Option SessionLike)
      (w cOk rOk : Bool) (store : List α) (ctx : ForceRunContext α) :
      Step (store, ctx)
        ((maybeRestoreOnAdapterEvent sid msg session store ctx w cOk rOk).store,
         (maybeRestoreOnAdapterEvent sid msg session store ctx w cOk rOk).ctx)
  | cancelAll (ok : String → Bool) (store : List α) (ctx : ForceRunContext α) :
      Step (store, ctx)
        ((cancelAllPendingRestores store ctx ok).store,
         (cancelAllPendingRestores store ctx ok).ctx)
  | willReceive (sid : String) (msg : DapMessage) (store : List α)
      (ctx : ForceRunContext α) :
      Step (store, ctx) (store, onWillReceiveMessage sid msg ctx)
  | terminate (sid : String) (store : List α) (ctx : ForceRunContext α) :
      Step (store, ctx)
        ((onTerminateSafetyNet sid store ctx).1, (onTerminateSafetyNet sid store ctx).2.1)
  | noopTimer (sid : String) (rOk : Bool) (store : List α) (ctx : ForceRunContext α) :
      Step (store, ctx)
        ((noopTimerFire sid store ctx rOk).1, (noopTimerFire sid store ctx rOk).2.1)

/-- States reachable by the extension: activation starts with empty maps
and an arbitrary user breakpoint store, and every transition is a Step. -/
inductive Reachable : (List α × ForceRunContext α) → Prop where
  | init (store : List α) : Reachable (store, ⟨[], []⟩)
  | step {s1 s2 : List α × ForceRunContext α} :
      Reachable s1 → Step s1 s2 → Reachable s2

/-- The auto-continue counter bound: every tracked run state keeps its
counter at or below the ceiling. -/
def counterInv (ctx : ForceRunContext α) : Prop :=
  ∀ p ∈ ctx.activeRuns, p.2.continueCount ≤ MAX_EXCEPTION_CONTINUES

end StepRelation

section MapLemmas

variable {β : Type}

theorem mapLookup_insert (k : String) (v : β) (l : List (String × β)) :
    mapLookup k (mapInsert k v l) = some v := by
  induction l with
  | nil => simp [mapLookup, mapInsert]
  | cons hd tl ih =>
    obtain ⟨k1, v1⟩ := hd
    by_cases h : k1 = k
    · simp [mapLookup, mapInsert, h]
    · simp [mapLookup, mapInsert, h, ih]

theorem mapLookup_erase (k : String) (l : List (String × β)) :
    mapLookup k (mapErase k l) = none := by
  induction l with
  | nil => simp [mapLookup, mapErase]
  | cons hd tl ih =>
    obtain ⟨k1, v1⟩ := hd
    by_cases h : k1 = k
    · simp [mapErase, h, ih]
    · simp [mapLookup, mapErase, h, ih]

theorem mapLookup_insert_ne (k k2 : String) (v : β) (l : List (String × β))
    (hne : k2 ≠ k) : mapLookup k2 (mapInsert k v l) = mapLookup k2 l := by
  have hne2 : ¬ k = k2 := fun h => hne (Eq.symm h)
  induction l with
  | nil => simp [mapLookup, mapInsert, hne2]
  | cons hd tl ih =>
    obtain ⟨k1, v1⟩ := hd
    by_cases h : k1 = k
    · subst h
      simp [mapLookup, mapInsert, hne2]
    · simp only [mapInsert, h, if_false]
      by_cases h2 : k1 = k2
      · simp [mapLookup, h2]
      · simp [mapLookup, h2, ih]

theorem mem_mapInsert (k : String) (v : β) (l : List (String × β)) (p : String × β)
    (hp : p ∈ mapInsert k v l) : p = (k, v) ∨ p ∈ l := by
  induction l with
  | nil =>
    simp only [mapInsert] at hp
    exact Or.inl (List.mem_singleton.mp hp)
  | cons hd tl ih =>
    obtain ⟨k1, v1⟩ := hd
    by_cases h : k1 = k
    · simp only [mapInsert, h, if_true] at hp
      rcases List.mem_cons.mp hp with hp1 | hp1
      · exact Or.inl hp1
      · exact Or.inr (List.mem_cons_of_mem _ hp1)
    · simp only [mapInsert, h, if_false] at hp
      rcases List.mem_cons.mp hp with hp1 | hp1
      · exact Or.inr (hp1 ▸ List.mem_cons_self _ _)
      · rcases ih hp1 with h2 | h2
        · exact Or.inl h2
        · exact Or.inr (List.mem_cons_of_mem _ h2)

theorem mem_mapErase (k : String) (l : List (String × β)) (p : String × β)
    (hp : p ∈ mapErase k l) : p ∈ l := by
  induction l with
  | nil =>
    simp only [mapErase] at hp
    exact hp
  | cons hd tl ih =>
    obtain ⟨k1, v1⟩ := hd
    by_cases h : k1 = k
    · simp only [mapErase, h, if_true] at hp
      exact List.mem_cons_of_mem _ (ih hp)
    · simp only [mapErase, h, if_false] at hp
      rcases List.mem_cons.mp hp with hp1 | hp1
      · exact hp1 ▸ List.mem_cons_self _ _
      · exact List.mem_cons_of_mem _ (ih hp1)

theorem mapLookup_mem (k : String) (v : β) (l : List (String × β))
    (h : mapLookup k l = some v) : (k, v) ∈ l := by
  induction l with
  | nil => simp [mapLookup] at h
  | cons hd tl ih =>
    obtain ⟨k1, v1⟩ := hd
    by_cases hk : k1 = k
    · simp only [mapLookup, hk, if_true, Option.some.injEq] at h
      subst hk; subst h; exact List.mem_cons_self _ _
    · simp only [mapLookup, hk, if_false] at h
      exact List.mem_cons_of_mem _ (ih h)

end MapLemmas

section StoreLemmas

variable {α : Type} [DecidableEq α]

theorem removeBreakpointsFromStore_self (l : List α) :
    removeBreakpointsFromStore l l = [] := by
  simp only [removeBreakpointsFromStore]
  refine List.filter_eq_nil_iff.mpr ?_
  intro a ha
  simp [ha]

end StoreLemmas

/-- Claim C1: for every saved snapshot S and every breakpoint store
contents L present when the restore engine runs, the store after
restoreBreakpoints equals exactly S in the original order: every element
of L is removed (when L is non-empty), S is re-added unconditionally, and
no element of L is retained or duplicated. -/
theorem restoreBreakpoints_yields_saved_exactly {α : Type} [DecidableEq α]
    (L S : List α) : (restoreBreakpoints L S).1 = S := by
  by_cases h : L.length > 0
  · simp [restoreBreakpoints, h, addBreakpointsToStore, removeBreakpointsFromStore_self]
  · have hL : L = [] := List.length_eq_zero.mp (Nat.eq_zero_of_not_pos h)
    subst hL
    simp [restoreBreakpoints, addBreakpointsToStore]

/-- Claim C1 witness: concrete evaluation of the restore engine with a
leftover temporary breakpoint present. -/
theorem restoreBreakpoints_yields_saved_exactly_witness :
    (restoreBreakpoints ([9] : List Nat) [1, 2]).1 = [1, 2] :=
  restoreBreakpoints_yields_saved_exactly [9] [1, 2]

section CoreLemmas

variable {α : Type} [DecidableEq α]

theorem maybeRestore_of_lookup_none (sid : String) (msg : DapMessage)
    (session : Option SessionLike) (store : List α) (ctx : ForceRunContext α)
    (w cOk rOk : Bool) (h : mapLookup sid ctx.activeRuns = none) :
    maybeRestoreOnAdapterEvent sid msg session store ctx w cOk rOk =
      ⟨false, store, ctx, []⟩ := by
  simp [maybeRestoreOnAdapterEvent, h]

theorem maybeRestore_restored_ctx (sid : String) (msg : DapMessage)
    (session : Option SessionLike) (store : List α) (ctx : ForceRunContext α)
    (w cOk rOk : Bool)
    (h : (maybeRestoreOnAdapterEvent sid msg session store ctx w cOk rOk).restored = true) :
    (maybeRestoreOnAdapterEvent sid msg session store ctx w cOk rOk).ctx =
      ⟨mapErase sid ctx.activeRuns, ctx.exceptionCache⟩ := by
  cases hl : mapLookup sid ctx.activeRuns with
  | none => simp [maybeRestoreOnAdapterEvent, hl] at h
  | some rs =>
    simp only [maybeRestoreOnAdapterEvent, hl] at h ⊢
    split_ifs at h ⊢ <;> simp [restoreTail]

theorem forceRun_of_pending (s : SessionLike) (store : List α) (ctx : ForceRunContext α)
    (ok : Bool) (h : (mapLookup s.id ctx.activeRuns).isSome = true) :
    forceRunToCursorImpl (some s) store ctx ok = ⟨store, ctx, []⟩ := by
  simp [forceRunToCursorImpl, h]

theorem showWarning_notMem_restoreBreakpoints (store saved : List α) :
    HostCall.showWarningMessage ∉ (restoreBreakpoints store saved).2 := by
  unfold restoreBreakpoints
  split_ifs <;> simp

omit [DecidableEq α] in
theorem showWarning_notMem_filterRestoreCalls (sid : String) (session : Option SessionLike)
    (ctx : ForceRunContext α) (ok : Bool) :
    HostCall.showWarningMessage ∉ filterRestoreCalls (α := α) sid session ctx ok := by
  cases hc : mapLookup sid ctx.exceptionCache with
  | none => cases session <;> simp [filterRestoreCalls, hc]
  | some c =>
    cases session with
    | none => simp [filterRestoreCalls, hc]
    | some s =>
      simp only [filterRestoreCalls, hc]
      split_ifs <;> simp

theorem count_showWarning_fullRestore (sid : String) (st : ForceRunState α)
    (session : Option SessionLike) (ctx : ForceRunContext α) (store : List α) (ok : Bool) :
    ((fullRestore sid st session ctx store ok).2).count HostCall.showWarningMessage = 0 := by
  rw [List.count_eq_zero]
  simp only [fullRestore, List.mem_append]
  rintro (h | h)
  · exact showWarning_notMem_restoreBreakpoints _ _ h
  · exact showWarning_notMem_filterRestoreCalls _ _ _ _ h

omit [DecidableEq α] in
theorem filterRestoreCalls_of_not_capable (sid : String) (session : Option SessionLike)
    (ctx : ForceRunContext α) (ok : Bool) (h : capableOf session = false) :
    filterRestoreCalls (α := α) sid session ctx ok = [] := by
  cases session with
  | none => cases hc : mapLookup sid ctx.exceptionCache <;> simp [filterRestoreCalls, hc]
  | some s =>
    have hs : s.hasCustomRequest = false := by simpa [capableOf] using h
    cases hc : mapLookup sid ctx.exceptionCache <;> simp [filterRestoreCalls, hc, hs]

theorem addBps_mem_restoreBreakpoints (store saved : List α) :
    HostCall.addBreakpointsCall saved ∈ (restoreBreakpoints store saved).2 := by
  unfold restoreBreakpoints
  split_ifs <;> simp

theorem addBps_mem_fullRestore (sid : String) (st : ForceRunState α)
    (session : Option SessionLike) (ctx : ForceRunContext α) (store : List α) (ok : Bool) :
    HostCall.addBreakpointsCall st.savedBreakpoints ∈
      (fullRestore sid st session ctx store ok).2 := by
  unfold fullRestore
  exact List.mem_append_left _ (addBps_mem_restoreBreakpoints _ _)

theorem setExc_mem_fullRestore (sid : String) (cached : ExceptionFilterState)
    (st : ForceRunState α) (session : Option SessionLike) (ctx : ForceRunContext α)
    (store : List α) (ok : Bool)
    (hc : mapLookup sid ctx.exceptionCache = some cached)
    (hcap : capableOf session = true) :
    HostCall.setExceptionBreakpointsRequest sid cached ok ∈
      (fullRestore sid st session ctx store ok).2 := by
  cases session with
  | none => simp [capableOf] at hcap
  | some s =>
    have hs : s.hasCustomRequest = true := by simpa [capableOf] using hcap
    unfold fullRestore
    refine List.mem_append_right _ ?_
    simp [filterRestoreCalls, hc, hs]

theorem cancelLoop_calls_mem (entries : List (String × ForceRunState α))
    (ctx : ForceRunContext α) (ok : String → Bool) (p : String × ForceRunState α) :
    ∀ store : List α, p ∈ entries →
      HostCall.addBreakpointsCall p.2.savedBreakpoints ∈ (cancelLoop entries ctx store ok).2 ∧
      ∀ cached, mapLookup p.1 ctx.exceptionCache = some cached →
        capableOf p.2.sessionRef = true →
        HostCall.setExceptionBreakpointsRequest p.1 cached (ok p.1) ∈
          (cancelLoop entries ctx store ok).2 := by
  induction entries with
  | nil =>
    intro store hp
    cases hp
  | cons hd rest ih =>
    intro store hp
    obtain ⟨sid, st⟩ := hd
    rcases List.mem_cons.mp hp with hp1 | hp1
    · subst hp1
      constructor
      · simp only [cancelLoop]
        exact List.mem_append_left _ (addBps_mem_fullRestore _ _ _ _ _ _)
      · intro cached hc hcap
        simp only [cancelLoop]
        exact List.mem_append_left _ (setExc_mem_fullRestore _ _ _ _ _ _ _ hc hcap)
    · have hrec := ih (fullRestore sid st st.sessionRef ctx store (ok sid)).1 hp1
      constructor
      · simp only [cancelLoop]
        exact List.mem_append_right _ hrec.1
      · intro cached hc hcap
        simp only [cancelLoop]
        exact List.mem_append_right _ (hrec.2 cached hc hcap)

theorem cacheExceptionFilters_activeRuns {α : Type} (sid : String) (msg : DapMessage)
    (ctx : ForceRunContext α) :
    (cacheExceptionFilters sid msg ctx).activeRuns = ctx.activeRuns := by
  unfold cacheExceptionFilters
  split_ifs <;> rfl

theorem forceRun_activeRuns_mem (session : Option SessionLike) (ok : Bool)
    (store : List α) (ctx : ForceRunContext α) (p : String × ForceRunState α)
    (hp : p ∈ (forceRunToCursorImpl session store ctx ok).ctx.activeRuns) :
    p ∈ ctx.activeRuns ∨ p.2.continueCount = 0 := by
  cases session with
  | none => exact Or.inl (by simpa [forceRunToCursorImpl] using hp)
  | some s =>
    by_cases hpend : (mapLookup s.id ctx.activeRuns).isSome = true
    · rw [forceRun_of_pending s store ctx ok hpend] at hp
      exact Or.inl hp
    · by_cases hb : (s.hasCustomRequest && (mapLookup s.id ctx.exceptionCache).isSome) = true
      · have hctx : (forceRunToCursorImpl (some s) store ctx ok).ctx =
            ⟨mapInsert s.id ⟨store, 0, if ok then some ⟨s.id, true⟩ else none, false⟩
               ctx.activeRuns, ctx.exceptionCache⟩ := by
          simp [forceRunToCursorImpl, hpend, hb]
        rw [hctx] at hp
        rcases mem_mapInsert _ _ _ _ hp with h1 | h1
        · right; rw [h1]
        · exact Or.inl h1
      · have hctx : (forceRunToCursorImpl (some s) store ctx ok).ctx =
            ⟨mapInsert s.id ⟨store, 0, none, false⟩ ctx.activeRuns, ctx.exceptionCache⟩ := by
          simp [forceRunToCursorImpl, hpend, hb]
        rw [hctx] at hp
        rcases mem_mapInsert _ _ _ _ hp with h1 | h1
        · right; rw [h1]
        · exact Or.inl h1

theorem forceRunTracked_activeRuns_mem (session : Option SessionLike) (ok : Bool)
    (store : List α) (ctx : ForceRunContext α) (p : String × ForceRunState α)
    (hp : p ∈ (forceRunToCursorTracked session store ctx ok).ctx.activeRuns) :
    p ∈ ctx.activeRuns ∨ p.2.continueCount = 0 := by
  cases session with
  | none => exact Or.inl (by simpa [forceRunToCursorTracked] using hp)
  | some s =>
    by_cases hpend : (mapLookup s.id ctx.activeRuns).isSome = true
    · have : forceRunToCursorTracked (some s) store ctx ok = ⟨store, ctx, []⟩ := by
        simp [forceRunToCursorTracked, hpend]
      rw [this] at hp
      exact Or.inl hp
    · by_cases hb : (s.hasCustomRequest && (mapLookup s.id ctx.exceptionCache).isSome) = true
      · have hctx : (forceRunToCursorTracked (some s) store ctx ok).ctx =
            ⟨mapInsert s.id ⟨store, 0, if ok then some ⟨s.id, true⟩ else none, false⟩
               (cacheExceptionFilters s.id suppressionMessage ctx).activeRuns,
             (cacheExceptionFilters s.id suppressionMessage ctx).exceptionCache⟩ := by
          simp [forceRunToCursorTracked, hpend, hb]
        rw [hctx, cacheExceptionFilters_activeRuns] at hp
        rcases mem_mapInsert _ _ _ _ hp with h1 | h1
        · right; rw [h1]
        · exact Or.inl h1
      · have hctx : (forceRunToCursorTracked (some s) store ctx ok).ctx =
            ⟨mapInsert s.id ⟨store, 0, none, false⟩ ctx.activeRuns, ctx.exceptionCache⟩ := by
          simp [forceRunToCursorTracked, hpend, hb]
        rw [hctx] at hp
        rcases mem_mapInsert _ _ _ _ hp with h1 | h1
        · right; rw [h1]
        · exact Or.inl h1

theorem maybeRestore_activeRuns_mem (sid : String) (msg : DapMessage)
    (session : Option SessionLike) (store : List α) (ctx : ForceRunContext α)
    (w cOk rOk : Bool) (p : String × ForceRunState α)
    (hp : p ∈ (maybeRestoreOnAdapterEvent sid msg session store ctx w cOk rOk).ctx.activeRuns) :
    p ∈ ctx.activeRuns ∨
    ∃ st, mapLookup sid ctx.activeRuns = some st ∧
      st.continueCount < MAX_EXCEPTION_CONTINUES ∧
      p.2.continueCount = st.continueCount + 1 := by
  cases hl : mapLookup sid ctx.activeRuns with
  | none =>
    rw [maybeRestore_of_lookup_none sid msg session store ctx w cOk rOk hl] at hp
    exact Or.inl hp
  | some rs =>
    simp only [maybeRestoreOnAdapterEvent, hl] at hp
    split_ifs at hp with h1 h2 h3
    · exact Or.inl hp
    · rcases mem_mapInsert _ _ _ _ hp with he | he
      · exact Or.inr ⟨rs, rfl, h3, by rw [he]⟩
      · exact Or.inl he
    · simp only [restoreTail] at hp
      exact Or.inl (mem_mapErase _ _ _ hp)
    · simp only [restoreTail] at hp
      exact Or.inl (mem_mapErase _ _ _ hp)

omit [DecidableEq α] in
theorem onWillReceiveMessage_activeRuns_eq (sid : String) (msg : DapMessage)
    (ctx : ForceRunContext α) :
    (onWillReceiveMessage sid msg ctx).activeRuns = ctx.activeRuns ∨
    ∃ st, mapLookup sid ctx.activeRuns = some st ∧
      (onWillReceiveMessage sid msg ctx).activeRuns =
        mapInsert sid { st with didContinue := true } ctx.activeRuns := by
  simp only [onWillReceiveMessage]
  by_cases hc : msg.type = some "request" ∧ msg.command = some "continue"
  · rw [if_pos hc]
    cases hl : mapLookup sid (cacheExceptionFilters sid msg ctx).activeRuns with
    | none => exact Or.inl (cacheExceptionFilters_activeRuns _ _ _)
    | some st =>
      refine Or.inr ⟨st, ?_, ?_⟩
      · rw [← cacheExceptionFilters_activeRuns sid msg ctx]
        exact hl
      · simp [cacheExceptionFilters_activeRuns]
  · rw [if_neg hc]
    exact Or.inl (cacheExceptionFilters_activeRuns _ _ _)

omit [DecidableEq α] in
theorem onWillReceive_activeRuns_mem (sid : String) (msg : DapMessage)
    (ctx : ForceRunContext α) (p : String × ForceRunState α)
    (hp : p ∈ (onWillReceiveMessage sid msg ctx).activeRuns) :
    p ∈ ctx.activeRuns ∨
    ∃ st, mapLookup sid ctx.activeRuns = some st ∧
      p.2.continueCount = st.continueCount := by
  rcases onWillReceiveMessage_activeRuns_eq sid msg ctx with he | ⟨st, hl, he⟩
  · rw [he] at hp
    exact Or.inl hp
  · rw [he] at hp
    rcases mem_mapInsert _ _ _ _ hp with h1 | h1
    · exact Or.inr ⟨st, hl, by rw [h1]⟩
    · exact Or.inl h1

theorem terminate_activeRuns_mem (sid : String) (store : List α)
    (ctx : ForceRunContext α) (p : String × ForceRunState α)
    (hp : p ∈ (onTerminateSafetyNet sid store ctx).2.1.activeRuns) :
    p ∈ ctx.activeRuns := by
  cases hl : mapLookup sid ctx.activeRuns with
  | none =>
    simp only [onTerminateSafetyNet, hl] at hp
    exact hp
  | some st =>
    simp only [onTerminateSafetyNet, hl] at hp
    exact mem_mapErase _ _ _ hp

theorem noopTimer_activeRuns_mem (sid : String) (store : List α)
    (ctx : ForceRunContext α) (rOk : Bool) (p : String × ForceRunState α)
    (hp : p ∈ (noopTimerFire sid store ctx rOk).2.1.activeRuns) :
    p ∈ ctx.activeRuns := by
  cases hl : mapLookup sid ctx.activeRuns with
  | none =>
    simp only [noopTimerFire, hl] at hp
    exact hp
  | some st =>
    simp only [noopTimerFire, hl] at hp
    split_ifs at hp
    · exact hp
    · exact mem_mapErase _ _ _ hp

end CoreLemmas

/-- Claim C3: for a session with an active force-run receiving a stopped
event with reason exception and a usable (customRequest-capable) session
reference, with the window dependency present: when the auto-continue
counter is below the ceiling of 3, the handler increments the counter in
place, issues exactly one continue request for the reported thread, leaves
the run state present, and returns false; when the counter equals 3, the
same input instead clears the run state, performs the full restore, emits
exactly one user-facing warning, and returns true. -/
theorem maybeRestore_exception_stop_cases {α : Type} [DecidableEq α]
    (sid : String) (tid : Option Nat) (es : SessionLike) (store : List α)
    (ctx : ForceRunContext α) (st : ForceRunState α) (cOk rOk : Bool)
    (hes : es.hasCustomRequest = true)
    (hst : mapLookup sid ctx.activeRuns = some st) :
    (st.continueCount < MAX_EXCEPTION_CONTINUES →
      maybeRestoreOnAdapterEvent sid
          ⟨some "event", none, some "stopped", none, none, some "exception", tid⟩
          (some es) store ctx true cOk rOk =
        ⟨false, store,
         ⟨mapInsert sid { st with continueCount := st.continueCount + 1 } ctx.activeRuns,
          ctx.exceptionCache⟩,
         [HostCall.continueRequest sid tid cOk]⟩) ∧
    (st.continueCount = MAX_EXCEPTION_CONTINUES →
      maybeRestoreOnAdapterEvent sid
          ⟨some "event", none, some "stopped", none, none, some "exception", tid⟩
          (some es) store ctx true cOk rOk =
        ⟨true,
         (fullRestore sid st (some es)
            ⟨mapErase sid ctx.activeRuns, ctx.exceptionCache⟩ store rOk).1,
         ⟨mapErase sid ctx.activeRuns, ctx.exceptionCache⟩,
         HostCall.showWarningMessage ::
           (fullRestore sid st (some es)
              ⟨mapErase sid ctx.activeRuns, ctx.exceptionCache⟩ store rOk).2⟩ ∧
      (maybeRestoreOnAdapterEvent sid
          ⟨some "event", none, some "stopped", none, none, some "exception", tid⟩
          (some es) store ctx true cOk rOk).calls.count HostCall.showWarningMessage = 1) := by
  constructor
  · intro hlt
    simp [maybeRestoreOnAdapterEvent, hst, Option.orElse, capableOf, hes, hlt]
  · intro hmax
    have hnlt : ¬ st.continueCount < MAX_EXCEPTION_CONTINUES := by
      rw [hmax]; exact Nat.lt_irrefl _
    have heq : maybeRestoreOnAdapterEvent sid
        ⟨some "event", none, some "stopped", none, none, some "exception", tid⟩
        (some es) store ctx true cOk rOk =
      ⟨true,
       (fullRestore sid st (some es)
          ⟨mapErase sid ctx.activeRuns, ctx.exceptionCache⟩ store rOk).1,
       ⟨mapErase sid ctx.activeRuns, ctx.exceptionCache⟩,
       HostCall.showWarningMessage ::
         (fullRestore sid st (some es)
            ⟨mapErase sid ctx.activeRuns, ctx.exceptionCache⟩ store rOk).2⟩ := by
      simp [maybeRestoreOnAdapterEvent, hst, Option.orElse, capableOf, hes, hnlt, restoreTail]
    refine ⟨heq, ?_⟩
    rw [heq]
    simp [List.count_cons, count_showWarning_fullRestore]

/-- Claim C3 witness: concrete exception stops at counter 0 (auto-continue)
and at counter 3 (restore with one warning). -/
theorem maybeRestore_exception_stop_cases_witness :
    maybeRestoreOnAdapterEvent "s"
        ⟨some "event", none, some "stopped", none, none, some "exception", some 42⟩
        (some ⟨"s", true⟩) ([1, 2] : List Nat) ⟨[("s", ⟨[5], 0, none, false⟩)], []⟩
        true true true =
      ⟨false, [1, 2], ⟨[("s", ⟨[5], 1, none, false⟩)], []⟩,
       [HostCall.continueRequest "s" (some 42) true]⟩ ∧
    (maybeRestoreOnAdapterEvent "s"
        ⟨some "event", none, some "stopped", none, none, some "exception", some 42⟩
        (some ⟨"s", true⟩) ([1, 2] : List Nat) ⟨[("s", ⟨[5], 3, none, false⟩)], []⟩
        true true true).calls.count HostCall.showWarningMessage = 1 :=
  ⟨(maybeRestore_exception_stop_cases "s" (some 42) ⟨"s", true⟩ [1, 2]
      ⟨[("s", ⟨[5], 0, none, false⟩)], []⟩ ⟨[5], 0, none, false⟩ true true rfl rfl).1
      (by decide),
   ((maybeRestore_exception_stop_cases "s" (some 42) ⟨"s", true⟩ [1, 2]
      ⟨[("s", ⟨[5], 3, none, false⟩)], []⟩ ⟨[5], 3, none, false⟩ true true rfl rfl).2
      rfl).2⟩

/-- Claim C4: with a force-run already pending for the session identifier
after a first start, a second start for the same session returns
immediately without issuing any host call and without mutating the store,
the active-run map or the saved snapshot; the saved snapshot still equals
the pre-first-call store contents, and the run-to-cursor command is issued
exactly once across both calls, whatever the store contents at the second
call. -/
theorem forceRun_second_start_noop {α : Type} [DecidableEq α] (s : SessionLike)
    (store1 store2 : List α) (ctx : ForceRunContext α) (ok1 ok2 : Bool)
    (h : mapLookup s.id ctx.activeRuns = none) :
    forceRunToCursorImpl (some s) store2
        (forceRunToCursorImpl (some s) store1 ctx ok1).ctx ok2 =
      ⟨store2, (forceRunToCursorImpl (some s) store1 ctx ok1).ctx, []⟩ ∧
    (∃ st : ForceRunState α,
        mapLookup s.id (forceRunToCursorImpl (some s) store1 ctx ok1).ctx.activeRuns =
          some st ∧
        st.savedBreakpoints = store1) ∧
    ((forceRunToCursorImpl (some s) store1 ctx ok1).calls ++
       (forceRunToCursorImpl (some s) store2
          (forceRunToCursorImpl (some s) store1 ctx ok1).ctx ok2).calls).count
      HostCall.runToCursorCommand = 1 := by
  by_cases hb : (s.hasCustomRequest && (mapLookup s.id ctx.exceptionCache).isSome) = true
  · have hctx : (forceRunToCursorImpl (some s) store1 ctx ok1).ctx =
        ⟨mapInsert s.id ⟨store1, 0, if ok1 then some ⟨s.id, true⟩ else none, false⟩
           ctx.activeRuns, ctx.exceptionCache⟩ := by
      simp [forceRunToCursorImpl, h, hb]
    have hlk : mapLookup s.id (forceRunToCursorImpl (some s) store1 ctx ok1).ctx.activeRuns =
        some ⟨store1, 0, if ok1 then some ⟨s.id, true⟩ else none, false⟩ := by
      rw [hctx]; exact mapLookup_insert _ _ _
    have hsecond : forceRunToCursorImpl (some s) store2
        (forceRunToCursorImpl (some s) store1 ctx ok1).ctx ok2 =
      ⟨store2, (forceRunToCursorImpl (some s) store1 ctx ok1).ctx, []⟩ :=
      forceRun_of_pending s store2 _ ok2 (by rw [hlk]; rfl)
    refine ⟨hsecond, ⟨_, hlk, rfl⟩, ?_⟩
    have hcalls1 : (forceRunToCursorImpl (some s) store1 ctx ok1).calls =
        [HostCall.removeBreakpointsCall store1,
         HostCall.setExceptionBreakpointsRequest s.id ⟨[], none⟩ ok1,
         HostCall.runToCursorCommand] := by
      simp [forceRunToCursorImpl, h, hb]
    rw [hcalls1, hsecond]
    simp [List.count_cons]
  · have hctx : (forceRunToCursorImpl (some s) store1 ctx ok1).ctx =
        ⟨mapInsert s.id ⟨store1, 0, none, false⟩ ctx.activeRuns, ctx.exceptionCache⟩ := by
      simp [forceRunToCursorImpl, h, hb]
    have hlk : mapLookup s.id (forceRunToCursorImpl (some s) store1 ctx ok1).ctx.activeRuns =
        some ⟨store1, 0, none, false⟩ := by
      rw [hctx]; exact mapLookup_insert _ _ _
    have hsecond : forceRunToCursorImpl (some s) store2
        (forceRunToCursorImpl (some s) store1 ctx ok1).ctx ok2 =
      ⟨store2, (forceRunToCursorImpl (some s) store1 ctx ok1).ctx, []⟩ :=
      forceRun_of_pending s store2 _ ok2 (by rw [hlk]; rfl)
    refine ⟨hsecond, ⟨_, hlk, rfl⟩, ?_⟩
    have hcalls1 : (forceRunToCursorImpl (some s) store1 ctx ok1).calls =
        [HostCall.removeBreakpointsCall store1, HostCall.runToCursorCommand] := by
      simp [forceRunToCursorImpl, h, hb]
    rw [hcalls1, hsecond]
    simp [List.count_cons]

/-- Claim C4 witness: two immediate starts for the same session with the
store emptied in between; the snapshot keeps the original store contents
and run-to-cursor is issued once. -/
theorem forceRun_second_start_noop_witness :
    forceRunToCursorImpl (some ⟨"s", false⟩) ([] : List Nat)
        (forceRunToCursorImpl (some ⟨"s", false⟩) [1, 2] ⟨[], []⟩ true).ctx true =
      ⟨[], (forceRunToCursorImpl (some ⟨"s", false⟩) [1, 2] ⟨[], []⟩ true).ctx, []⟩ ∧
    (∃ st : ForceRunState Nat,
        mapLookup "s"
          (forceRunToCursorImpl (some ⟨"s", false⟩) [1, 2] ⟨[], []⟩ true).ctx.activeRuns =
          some st ∧
        st.savedBreakpoints = [1, 2]) ∧
    ((forceRunToCursorImpl (some ⟨"s", false⟩) [1, 2] ⟨[], []⟩ true).calls ++
       (forceRunToCursorImpl (some ⟨"s", false⟩) ([] : List Nat)
          (forceRunToCursorImpl (some ⟨"s", false⟩) [1, 2] ⟨[], []⟩ true).ctx true).calls).count
      HostCall.runToCursorCommand = 1 :=
  forceRun_second_start_noop ⟨"s", false⟩ [1, 2] [] ⟨[], []⟩ true true rfl

/-- Claim C10: on a stopped event with reason exception for a tracked
session, when neither the session passed to the handler nor the stored
session reference carries the customRequest capability, the handler skips
auto-continue entirely regardless of the counter value, clears the run
state, performs the restore (only the breakpoint part of the full restore
can act, since the filter restore also needs the capability), emits no
warning, and returns true. -/
theorem maybeRestore_exception_without_capability {α : Type} [DecidableEq α]
    (sid : String) (tid : Option Nat) (session : Option SessionLike)
    (store : List α) (ctx : ForceRunContext α) (st : ForceRunState α)
    (w cOk rOk : Bool)
    (hst : mapLookup sid ctx.activeRuns = some st)
    (hsess : capableOf session = false)
    (href : capableOf st.sessionRef = false) :
    maybeRestoreOnAdapterEvent sid
        ⟨some "event", none, some "stopped", none, none, some "exception", tid⟩
        session store ctx w cOk rOk =
      ⟨true, (restoreBreakpoints store st.savedBreakpoints).1,
       ⟨mapErase sid ctx.activeRuns, ctx.exceptionCache⟩,
       (restoreBreakpoints store st.savedBreakpoints).2⟩ := by
  have heff : capableOf (session.orElse fun _ => st.sessionRef) = false := by
    cases session with
    | some es => simpa [Option.orElse] using hsess
    | none => simpa [Option.orElse] using href
  have hfilter : filterRestoreCalls (α := α) sid (session.orElse fun _ => st.sessionRef)
      ⟨mapErase sid ctx.activeRuns, ctx.exceptionCache⟩ rOk = [] :=
    filterRestoreCalls_of_not_capable _ _ _ _ heff
  simp [maybeRestoreOnAdapterEvent, hst, heff, restoreTail, fullRestore, hfilter]

/-- Claim C10 witness: exception stop at counter 0 with a session lacking
customRequest and no stored reference; the handler restores at once with
no continue request and no warning. -/
theorem maybeRestore_exception_without_capability_witness :
    maybeRestoreOnAdapterEvent "s"
        ⟨some "event", none, some "stopped", none, none, some "exception", some 7⟩
        (some ⟨"s", false⟩) ([9] : List Nat) ⟨[("s", ⟨[5], 0, none, false⟩)], []⟩
        true true true =
      ⟨true, [5], ⟨[], []⟩,
       [HostCall.removeBreakpointsCall [9], HostCall.addBreakpointsCall [5]]⟩ :=
  maybeRestore_exception_without_capability "s" (some 7) (some ⟨"s", false⟩) [9]
    ⟨[("s", ⟨[5], 0, none, false⟩)], []⟩ ⟨[5], 0, none, false⟩ true true true
    rfl rfl rfl

/-- Claim C8: a single cancelAllPendingRestores call performs the full
restore engine sequence for every pending session, whatever the outcomes
of the individual protocol calls: afterwards the active-run map is empty
and the exception cache persists unchanged, and for every pending session
the trace contains the re-add of its saved breakpoints, as well as its
exception filter restore request whenever a cached configuration and a
capable stored session reference exist. -/
theorem cancelAll_restores_every_pending_session {α : Type} [DecidableEq α]
    (store : List α) (ctx : ForceRunContext α) (ok : String → Bool) :
    (cancelAllPendingRestores store ctx ok).ctx = ⟨[], ctx.exceptionCache⟩ ∧
    ∀ p ∈ ctx.activeRuns,
      HostCall.addBreakpointsCall p.2.savedBreakpoints ∈
        (cancelAllPendingRestores store ctx ok).calls ∧
      ∀ cached, mapLookup p.1 ctx.exceptionCache = some cached →
        capableOf p.2.sessionRef = true →
        HostCall.setExceptionBreakpointsRequest p.1 cached (ok p.1) ∈
          (cancelAllPendingRestores store ctx ok).calls := by
  refine ⟨rfl, ?_⟩
  intro p hp
  exact cancelLoop_calls_mem ctx.activeRuns ctx ok p store hp

/-- Claim C8 witness: two pending sessions with every protocol call
failing; both saved sets are re-added, the filter restore for the first
session is issued, the active-run map is cleared and the cache persists. -/
theorem cancelAll_restores_every_pending_session_witness :
    (cancelAllPendingRestores ([9] : List Nat)
        ⟨[("a", ⟨[1], 0, some ⟨"a", true⟩, false⟩), ("b", ⟨[2], 3, none, false⟩)],
         [("a", ⟨["uncaught"], none⟩)]⟩ (fun _ => false)).ctx =
      ⟨[], [("a", ⟨["uncaught"], none⟩)]⟩ ∧
    HostCall.addBreakpointsCall [1] ∈
      (cancelAllPendingRestores ([9] : List Nat)
        ⟨[("a", ⟨[1], 0, some ⟨"a", true⟩, false⟩), ("b", ⟨[2], 3, none, false⟩)],
         [("a", ⟨["uncaught"], none⟩)]⟩ (fun _ => false)).calls ∧
    HostCall.addBreakpointsCall [2] ∈
      (cancelAllPendingRestores ([9] : List Nat)
        ⟨[("a", ⟨[1], 0, some ⟨"a", true⟩, false⟩), ("b", ⟨[2], 3, none, false⟩)],
         [("a", ⟨["uncaught"], none⟩)]⟩ (fun _ => false)).calls ∧
    HostCall.setExceptionBreakpointsRequest "a" ⟨["uncaught"], none⟩ false ∈
      (cancelAllPendingRestores ([9] : List Nat)
        ⟨[("a", ⟨[1], 0, some ⟨"a", true⟩, false⟩), ("b", ⟨[2], 3, none, false⟩)],
         [("a", ⟨["uncaught"], none⟩)]⟩ (fun _ => false)).calls :=
  ⟨(cancelAll_restores_every_pending_session [9]
      ⟨[("a", ⟨[1], 0, some ⟨"a", true⟩, false⟩), ("b", ⟨[2], 3, none, false⟩)],
       [("a", ⟨["uncaught"], none⟩)]⟩ (fun _ => false)).1,
   ((cancelAll_restores_every_pending_session [9]
      ⟨[("a", ⟨[1], 0, some ⟨"a", true⟩, false⟩), ("b", ⟨[2], 3, none, false⟩)],
       [("a", ⟨["uncaught"], none⟩)]⟩ (fun _ => false)).2
      ("a", ⟨[1], 0, some ⟨"a", true⟩, false⟩) (by decide)).1,
   ((cancelAll_restores_every_pending_session [9]
      ⟨[("a", ⟨[1], 0, some ⟨"a", true⟩, false⟩), ("b", ⟨[2], 3, none, false⟩)],
       [("a", ⟨["uncaught"], none⟩)]⟩ (fun _ => false)).2
      ("b", ⟨[2], 3, none, false⟩) (by decide)).1,
   ((cancelAll_restores_every_pending_session [9]
      ⟨[("a", ⟨[1], 0, some ⟨"a", true⟩, false⟩), ("b", ⟨[2], 3, none, false⟩)],
       [("a", ⟨["uncaught"], none⟩)]⟩ (fun _ => false)).2
      ("a", ⟨[1], 0, some ⟨"a", true⟩, false⟩) (by decide)).2
     ⟨["uncaught"], none⟩ rfl rfl⟩

/-- Claim C9: in every reachable state of the extension, the auto-continue
counter of every tracked Force-Run State is at most the ceiling of 3 (and
at least 0, which the Nat embedding carries by construction): start
initialises it to zero, the stop handler increments it only strictly below
the ceiling, and no other operation raises it. -/
theorem reachable_counter_within_ceiling {α : Type} [DecidableEq α]
    (s : List α × ForceRunContext α) (h : Reachable s) : counterInv s.2 := by
  induction h with
  | init store =>
    intro p hp
    cases hp
  | step hr hst ih =>
    cases hst with
    | forceRun session ok store ctx =>
      intro p hp
      rcases forceRun_activeRuns_mem session ok store ctx p hp with h1 | h1
      · exact ih p h1
      · rw [h1]; exact Nat.zero_le _
    | forceRunTracked session ok store ctx =>
      intro p hp
      rcases forceRunTracked_activeRuns_mem session ok store ctx p hp with h1 | h1
      · exact ih p h1
      · rw [h1]; exact Nat.zero_le _
    | adapterEvent sid msg session w cOk rOk store ctx =>
      intro p hp
      rcases maybeRestore_activeRuns_mem sid msg session store ctx w cOk rOk p hp with
        h1 | ⟨st, hl, hlt, hcnt⟩
      · exact ih p h1
      · rw [hcnt]; exact hlt
    | cancelAll ok store ctx =>
      intro p hp
      cases hp
    | willReceive sid msg store ctx =>
      intro p hp
      rcases onWillReceive_activeRuns_mem sid msg ctx p hp with h1 | ⟨st, hl, hcnt⟩
      · exact ih p h1
      · rw [hcnt]
        exact ih (sid, st) (mapLookup_mem _ _ _ hl)
    | terminate sid store ctx =>
      intro p hp
      exact ih p (terminate_activeRuns_mem sid store ctx p hp)
    | noopTimer sid rOk store ctx =>
      intro p hp
      exact ih p (noopTimer_activeRuns_mem sid store ctx rOk p hp)

/-- Claim C9 witness: the state reached by one start from activation
carries a run state whose counter is zero, within the ceiling. -/
theorem reachable_counter_within_ceiling_witness :
    (⟨[1], 0, none, false⟩ : ForceRunState Nat).continueCount ≤ MAX_EXCEPTION_CONTINUES :=
  reachable_counter_within_ceiling
    ((forceRunToCursorImpl (some ⟨"s", false⟩) [1] ⟨[], []⟩ true).store,
     (forceRunToCursorImpl (some ⟨"s", false⟩) [1] ⟨[], []⟩ true).ctx)
    (Reachable.step (Reachable.init [1])
      (Step.forceRun (some ⟨"s", false⟩) true [1] ⟨[], []⟩))
    ("s", ⟨[1], 0, none, false⟩) (by decide)

/-- Claim C2 (code bug witness): forceRunToCursorImpl issues its
suppression request (extension.ts line 193) before inserting the run state
into activeRuns (line 200), so at the moment the tracker observes the
request no Force-Run State entry exists for the session; under the
activate wiring the suppression call is therefore cached as if it were
user configuration. Concretely: a session with cached user filters
consisting of the single filter uncaught, after a start that issues the
suppression request, ends with the cache overwritten by the empty filter
set carried by the suppression call. -/
theorem forceRun_suppression_call_gets_cached :
    mapLookup "s1" (⟨[], [("s1", ⟨["uncaught"], none⟩)]⟩ :
        ForceRunContext Nat).exceptionCache = some ⟨["uncaught"], none⟩ ∧
    mapLookup "s1" ((forceRunToCursorTracked (some ⟨"s1", true⟩) ([7] : List Nat)
        ⟨[], [("s1", ⟨["uncaught"], none⟩)]⟩ true).ctx.exceptionCache)
      = some ⟨[], none⟩ := by
  constructor <;> decide

/-- Claim C5: restoration is idempotent. Whenever a delivery of the stop
event handler reports that it restored, the run state entry has been
cleared, and delivering the same event again performs no store mutation,
issues no host call and returns false. -/
theorem maybeRestore_idempotent {α : Type} [DecidableEq α] (sid : String)
    (msg : DapMessage) (session : Option SessionLike) (store : List α)
    (ctx : ForceRunContext α) (w cOk rOk cOk2 rOk2 : Bool)
    (h : (maybeRestoreOnAdapterEvent sid msg session store ctx w cOk rOk).restored = true) :
    maybeRestoreOnAdapterEvent sid msg session
        (maybeRestoreOnAdapterEvent sid msg session store ctx w cOk rOk).store
        (maybeRestoreOnAdapterEvent sid msg session store ctx w cOk rOk).ctx w cOk2 rOk2 =
      ⟨false,
       (maybeRestoreOnAdapterEvent sid msg session store ctx w cOk rOk).store,
       (maybeRestoreOnAdapterEvent sid msg session store ctx w cOk rOk).ctx, []⟩ := by
  apply maybeRestore_of_lookup_none
  rw [maybeRestore_restored_ctx sid msg session store ctx w cOk rOk h]
  exact mapLookup_erase sid ctx.activeRuns

/-- Claim C5 witness: a concrete stopped event delivered twice; the first
delivery restores, the second is a no-op returning false. -/
theorem maybeRestore_idempotent_witness :
    maybeRestoreOnAdapterEvent "s" ⟨some "event", none, some "stopped", none, none, none, none⟩
        none ([5] : List Nat) ⟨[], []⟩ true true true =
      ⟨false, [5], ⟨[], []⟩, []⟩ :=
  maybeRestore_idempotent "s" ⟨some "event", none, some "stopped", none, none, none, none⟩
    none [] ⟨[("s", ⟨[5], 0, none, false⟩)], []⟩ true true true true true (by decide)

/-- Claim C6: for every protocol event that is not a stopped event (among
them terminated, exited and unrelated events such as output), and for
every stopped event arriving with no Force-Run State tracked for the
session, the stop event handler restores nothing, mutates nothing, issues
no host call and returns false. -/
theorem maybeRestore_noop_unless_tracked_stop {α : Type} [DecidableEq α]
    (sid : String) (msg : DapMessage) (session : Option SessionLike)
    (store : List α) (ctx : ForceRunContext α) (w cOk rOk : Bool)
    (h : msg.type ≠ some "event" ∨ msg.event ≠ some "stopped" ∨
         mapLookup sid ctx.activeRuns = none) :
    maybeRestoreOnAdapterEvent sid msg session store ctx w cOk rOk =
      ⟨false, store, ctx, []⟩ := by
  cases hl : mapLookup sid ctx.activeRuns with
  | none => exact maybeRestore_of_lookup_none sid msg session store ctx w cOk rOk hl
  | some rs =>
    rcases h with h | h | h
    · simp [maybeRestoreOnAdapterEvent, hl, h]
    · simp [maybeRestoreOnAdapterEvent, hl, h]
    · rw [hl] at h; cases h

/-- Claim C6 witness: a terminated event for a tracked session is a no-op
returning false. -/
theorem maybeRestore_noop_unless_tracked_stop_witness :
    maybeRestoreOnAdapterEvent "s" ⟨some "event", none, some "terminated", none, none, none, none⟩
        none ([] : List Nat) ⟨[("s", ⟨[5], 0, none, false⟩)], []⟩ true true true =
      ⟨false, [], ⟨[("s", ⟨[5], 0, none, false⟩)], []⟩, []⟩ :=
  maybeRestore_noop_unless_tracked_stop "s"
    ⟨some "event", none, some "terminated", none, none, none, none⟩
    none [] ⟨[("s", ⟨[5], 0, none, false⟩)], []⟩ true true true (by decide)

/-- Claim C7: cacheExceptionFilters leaves the exception filter cache
unchanged unless the message is a setExceptionBreakpoints request observed
while no force-run is active for the session, in which case it replaces
the cached entry for the session entirely with the filter set and optional
per-filter conditions carried by the message (last write wins, no merge
with the previous cached value) while leaving every other entry and the
activeRuns map unchanged. -/
theorem cacheExceptionFilters_spec {α : Type} (sid : String) (msg : DapMessage)
    (ctx : ForceRunContext α) :
    (¬ (msg.type = some "request" ∧ msg.command = some "setExceptionBreakpoints") →
      cacheExceptionFilters sid msg ctx = ctx) ∧
    ((mapLookup sid ctx.activeRuns).isSome = true →
      cacheExceptionFilters sid msg ctx = ctx) ∧
    (msg.type = some "request" → msg.command = some "setExceptionBreakpoints" →
     mapLookup sid ctx.activeRuns = none →
      (cacheExceptionFilters sid msg ctx).activeRuns = ctx.activeRuns ∧
      mapLookup sid (cacheExceptionFilters sid msg ctx).exceptionCache =
        some ⟨msg.argFilters.getD [], msg.argFilterOptions⟩ ∧
      ∀ sid2, sid2 ≠ sid →
        mapLookup sid2 (cacheExceptionFilters sid msg ctx).exceptionCache =
          mapLookup sid2 ctx.exceptionCache) := by
  refine ⟨?_, ?_, ?_⟩
  · intro h
    rcases Decidable.not_and_iff_or_not.mp h with h1 | h1
    · simp [cacheExceptionFilters, h1]
    · simp [cacheExceptionFilters, h1]
  · intro h
    by_cases h1 : msg.type ≠ some "request" ∨ msg.command ≠ some "setExceptionBreakpoints"
    · simp [cacheExceptionFilters, h1]
    · simp [cacheExceptionFilters, h1, h]
  · intro h1 h2 h3
    have hcond : ¬ (msg.type ≠ some "request" ∨ msg.command ≠ some "setExceptionBreakpoints") := by
      simp [h1, h2]
    refine ⟨?_, ?_, ?_⟩
    · simp [cacheExceptionFilters, hcond, h3]
    · simp [cacheExceptionFilters, hcond, h3, mapLookup_insert]
    · intro sid2 hne
      simp [cacheExceptionFilters, hcond, h3, mapLookup_insert_ne _ _ _ _ hne]

/-- Claim C7 witness: two successive configuration requests observed with
no force-run active; the second entirely overwrites the first. -/
theorem cacheExceptionFilters_spec_witness :
    mapLookup "s" ((cacheExceptionFilters "s"
        ⟨some "request", some "setExceptionBreakpoints", none, some ["caught"], none, none, none⟩
        (cacheExceptionFilters "s"
          ⟨some "request", some "setExceptionBreakpoints", none, some ["uncaught"], none, none, none⟩
          (⟨[], []⟩ : ForceRunContext Nat))).exceptionCache) =
      some ⟨["caught"], none⟩ :=
  ((cacheExceptionFilters_spec "s"
      ⟨some "request", some "setExceptionBreakpoints", none, some ["caught"], none, none, none⟩
      _).2.2 rfl rfl (by decide)).2.1

end ForceRunToCursor
